import Mathlib

/-!
Shallow embedding of the `hibiki-rs` streaming pipeline
(`src/hibiki-rs/src/stream/`) together with proofs checking the
natural-language specification against the code.

Samples (Rust `f32`) are modelled as rationals `ℚ` (the playback ring
buffer, which only moves samples and never computes with them, is
polymorphic in the sample type).  Machine integers (`usize`, `u32`) are
modelled as `ℕ` with explicit wrapping (`% 2 ^ 32`) where the Rust code
wraps.  All definitions are translated from the Rust source; the only
definitions written from the specification's words are the ones whose
names contain `Spec`, used for refinement comparisons.
-/

namespace Hibiki

/-- Constant from `stream/resampler.rs`: `TARGET_SAMPLE_RATE = 24_000`. -/
def TARGET_SAMPLE_RATE : ℕ := 24000

/-- Constant from `stream/resampler.rs`: `FRAME_SIZE = 1_920`. -/
def FRAME_SIZE : ℕ := 1920

/-- Constant from `stream/playback.rs`: `RING_BUFFER_SIZE = TARGET_SAMPLE_RATE * 12`. -/
def RING_BUFFER_SIZE : ℕ := TARGET_SAMPLE_RATE * 12

/-- Constant from `stream/playback.rs`: `PAUSE_THRESHOLD = TARGET_SAMPLE_RATE / 100`
(the code's comment claims this is 2400 samples, i.e. 0.1 s). -/
def PAUSE_THRESHOLD : ℕ := TARGET_SAMPLE_RATE / 100

/-- Constant from `stream/playback.rs`: `RESUME_THRESHOLD = TARGET_SAMPLE_RATE / 10`
(the code's comment claims this is 6000 samples, i.e. 0.25 s). -/
def RESUME_THRESHOLD : ℕ := TARGET_SAMPLE_RATE / 10

/-- Constant from `stream/playback.rs`: `INITIAL_FILL_THRESHOLD = TARGET_SAMPLE_RATE / 10`. -/
def INITIAL_FILL_THRESHOLD : ℕ := TARGET_SAMPLE_RATE / 10

/-- State of `PlaybackBuffer` (`stream/playback.rs`).  The fixed-size
`Vec<f32>` backing store is modelled as a total function from indices to
samples; only indices `< RING_BUFFER_SIZE` are ever read by the
operations below. -/
structure PlaybackBuffer (α : Type) where
  buffer : ℕ → α
  write_pos : ℕ
  read_pos : ℕ

namespace PlaybackBuffer

variable {α : Type} [Inhabited α]

/-- Translation of `PlaybackBuffer::new` (`vec![0.0; RING_BUffER_SIZE]`
becomes the constant default function, positions start at `0`). -/
def new : PlaybackBuffer α := ⟨fun _ => default, 0, 0⟩

/-- Translation of `PlaybackBuffer::available`. -/
def available (s : PlaybackBuffer α) : ℕ :=
  if s.read_pos ≤ s.write_pos then
    s.write_pos - s.read_pos
  else
    RING_BUFFER_SIZE - s.read_pos + s.write_pos

/-- Translation of `PlaybackBuffer::read`.  The Rust function clears the
output vector and fills it; the model returns the output list together
with the updated buffer. -/
def read (s : PlaybackBuffer α) (count : ℕ) : List α × PlaybackBuffer α :=
  let avail := s.available
  let to_read := min count avail
  if to_read = 0 then
    ([], s)
  else if s.read_pos + to_read ≤ RING_BUFFER_SIZE then
    ((List.range to_read).map (fun i => s.buffer (s.read_pos + i)),
     { s with read_pos := (s.read_pos + to_read) % RING_BUFFER_SIZE })
  else
    let first_chunk := RING_BUFFER_SIZE - s.read_pos
    ((List.range first_chunk).map (fun i => s.buffer (s.read_pos + i)) ++
       (List.range (to_read - first_chunk)).map (fun i => s.buffer i),
     { s with read_pos := to_read - first_chunk })

/-- Translation of `PlaybackBuffer::write`.  Returns the `overflowed`
flag together with the updated buffer.  The two `copy_from_slice`
branches become pointwise function updates. -/
def write (s : PlaybackBuffer α) (samples : List α) : Bool × PlaybackBuffer α :=
  let avail := s.available
  let free := RING_BUFFER_SIZE - avail - 1
  let overflowed : Bool := decide (free < samples.length)
  let s1 : PlaybackBuffer α :=
    if free < samples.length then
      { s with read_pos := (s.read_pos + (samples.length - free)) % RING_BUFFER_SIZE }
    else s
  let to_write := min samples.length free
  let s2 : PlaybackBuffer α :=
    if s1.write_pos + to_write ≤ RING_BUFFER_SIZE then
      { s1 with
        buffer := fun i =>
          if s1.write_pos ≤ i ∧ i < s1.write_pos + to_write then
            samples.getD (i - s1.write_pos) default
          else s1.buffer i,
        write_pos := (s1.write_pos + to_write) % RING_BUFFER_SIZE }
    else
      let first_chunk := RING_BUFFER_SIZE - s1.write_pos
      { s1 with
        buffer := fun i =>
          if s1.write_pos ≤ i ∧ i < RING_BUFFER_SIZE then
            samples.getD (i - s1.write_pos) default
          else if i < to_write - first_chunk then
            samples.getD (first_chunk + i) default
          else s1.buffer i,
        write_pos := to_write - first_chunk }
  (overflowed, s2)

/-- Number of incoming samples the code actually copies into the backing
store during `write` (the `to_write = samples.len().min(free)` of the
source, with `free` computed before the drop of old samples). -/
def writeAccepted (s : PlaybackBuffer α) (samples : List α) : ℕ :=
  min samples.length (RING_BUFFER_SIZE - s.available - 1)

/-- Structural well-formedness: both cursors are in range, as guaranteed
by `new` and preserved by `read` and `write`. -/
def wf (s : PlaybackBuffer α) : Prop :=
  s.write_pos < RING_BUFFER_SIZE ∧ s.read_pos < RING_BUFFER_SIZE

/-- Abstract FIFO contents of the ring buffer: the `available` samples
starting at the read cursor, oldest first. -/
def contents (s : PlaybackBuffer α) : List α :=
  (List.range s.available).map (fun i => s.buffer ((s.read_pos + i) % RING_BUFFER_SIZE))

end PlaybackBuffer

/-- The post-start pause/resume hysteresis of the output callback in
`SpeakerSink::new` (`stream/playback.rs`, lines 170-179): given the
current `playing` flag, the buffer level and the underrun counter,
returns the updated flag and counter. -/
def hysteresis (playing : Bool) (buffer_len : ℕ) (underruns : ℕ) : Bool × ℕ :=
  if ¬playing ∧ RESUME_THRESHOLD ≤ buffer_len then
    (true, underruns)
  else if playing ∧ buffer_len < PAUSE_THRESHOLD then
    (false, underruns + 1)
  else
    (playing, underruns)

/-- State of `StreamingResampler` (`stream/resampler.rs`).  The
per-channel fixed-size input scratch `input_buffer : Vec<Vec<f32>>` is
modelled as a function `channel → index → sample` together with its row
length `chunkSize` (1024 for the real `rubato::FastFixedIn` allocation);
`input_len` is the fill level, `accumulated` the mono output
accumulator.  The external `rubato` resampler itself is abstracted: the
operations below take the processing step as a function argument. -/
structure StreamingResampler where
  chunkSize : ℕ
  inputBuf : ℕ → ℕ → ℚ
  input_len : ℕ
  accumulated : List ℚ
  channels : ℕ

namespace StreamingResampler

/-- The de-interleaving copy of `push_samples` (`for ch ... for i ...
self.input_buffer[ch][self.input_len + i] = interleaved[idx]`), as a
pointwise update of the scratch function. -/
def deinterleave (xs : List ℚ) (channels pos input_len to_copy : ℕ)
    (inputBuf : ℕ → ℕ → ℚ) : ℕ → ℕ → ℚ :=
  fun ch i =>
    if ch < channels ∧ input_len ≤ i ∧ i < input_len + to_copy then
      xs.getD ((pos + (i - input_len)) * channels + ch) 0
    else inputBuf ch i

/-- The mono downmix loop shared by `push_samples` and `flush`
(`sample += output_buffer[ch][i]; accumulated.push(sample / channels)`),
applied to the `(out_len, output_buffer)` result of a resampler
processing step. -/
def downmix (channels : ℕ) (r : ℕ × (ℕ → ℕ → ℚ)) : List ℚ :=
  (List.range r.1).map
    (fun i => (((List.range channels).map (fun ch => r.2 ch i)).sum) / (channels : ℚ))

/-- Translation of the `while pos < samples_per_channel` loop of
`StreamingResampler::push_samples`.  `proc` abstracts
`rubato::FastFixedIn::process_into_buffer`: from the full input scratch
it returns `out_len` and the output buffers.  The hypothesis
`0 < chunk` reflects the positive scratch size allocated by
`StreamingResampler::new`; with a zero-sized scratch the Rust loop would
not terminate. -/
def pushLoop (proc : (ℕ → ℕ → ℚ) → ℕ × (ℕ → ℕ → ℚ)) (channels chunk : ℕ)
    (xs : List ℚ) (spc : ℕ) (hc : 0 < chunk) (pos : ℕ) (inputBuf : ℕ → ℕ → ℚ)
    (input_len : ℕ) (acc : List ℚ) : (ℕ → ℕ → ℚ) × ℕ × List ℚ :=
  if h : pos < spc then
    let space := chunk - input_len
    let to_copy := min space (spc - pos)
    let buf' := deinterleave xs channels pos input_len to_copy inputBuf
    if h2 : chunk ≤ input_len + to_copy then
      pushLoop proc channels chunk xs spc hc (pos + to_copy) buf' 0
        (acc ++ downmix channels (proc buf'))
    else
      pushLoop proc channels chunk xs spc hc (pos + to_copy) buf' (input_len + to_copy) acc
  else
    (inputBuf, input_len, acc)
termination_by 2 * (spc - pos) + (if chunk ≤ input_len then 1 else 0)
decreasing_by
  · have e0 : (if chunk ≤ 0 then (1 : ℕ) else 0) = 0 := by
      rw [if_neg]; omega
    rw [e0]
    by_cases hle : chunk ≤ input_len
    · rw [if_pos hle]; omega
    · rw [if_neg hle]; omega
  · rw [if_neg h2, if_neg (show ¬ chunk ≤ input_len by omega)]
    omega

/-- Translation of the frame-extraction loop at the end of
`push_samples`: `while self.accumulated.len() >= FRAME_SIZE` pop a
1920-sample frame from the front.  Returns the frames and the remaining
accumulator. -/
def extractFrames (acc : List ℚ) : List (List ℚ) × List ℚ :=
  if h : FRAME_SIZE ≤ acc.length then
    let rest := extractFrames (acc.drop FRAME_SIZE)
    (acc.take FRAME_SIZE :: rest.1, rest.2)
  else
    ([], acc)
termination_by acc.length
decreasing_by
  have : 0 < FRAME_SIZE := by unfold FRAME_SIZE; omega
  simp only [List.length_drop]
  omega

/-- Translation of `StreamingResampler::push_samples` for an interleaved
input `xs`, with the external resampler abstracted as `proc`. -/
def push_samples (proc : (ℕ → ℕ → ℚ) → ℕ × (ℕ → ℕ → ℚ)) (s : StreamingResampler)
    (xs : List ℚ) (hc : 0 < s.chunkSize) : List (List ℚ) × StreamingResampler :=
  let spc := xs.length / s.channels
  let r := pushLoop proc s.channels s.chunkSize xs spc hc 0 s.inputBuf s.input_len s.accumulated
  let e := extractFrames r.2.2
  (e.1, { s with inputBuf := r.1, input_len := r.2.1, accumulated := e.2 })

/-- Translation of `StreamingResampler::flush`, with
`rubato::FastFixedIn::process_partial_into_buffer` abstracted as
`flushProc` (taking the fill level and the scratch, returning `out_len`
and the output buffers).  The `while` padding loop and the
`copy_from_slice` into a 1920-sample array become append-pad and
`take`. -/
def flush (flushProc : ℕ → (ℕ → ℕ → ℚ) → ℕ × (ℕ → ℕ → ℚ)) (s : StreamingResampler) :
    Option (List ℚ) × StreamingResampler :=
  let s1 : StreamingResampler :=
    if 0 < s.input_len then
      { s with
        accumulated := s.accumulated ++ downmix s.channels (flushProc s.input_len s.inputBuf),
        input_len := 0 }
    else s
  if 0 < s1.accumulated.length then
    let padded := s1.accumulated ++ List.replicate (FRAME_SIZE - s1.accumulated.length) 0
    (some (padded.take FRAME_SIZE), { s1 with accumulated := [] })
  else
    (none, s1)

end StreamingResampler

/-- The no-resampler branch of `run_file_input` (`stream/input.rs`,
lines 77-109): the padded PCM is cut into `FRAME_SIZE` chunks; a final
short chunk is zero-padded, sent and the loop breaks.  The model keeps
the pure data path: the shutdown flag stays `false` and every queue send
succeeds, so the returned list is exactly the frames sent. -/
def sendChunksDirect (pcm : List ℚ) : List (List ℚ) :=
  if pcm.length = 0 then
    []
  else if pcm.length < FRAME_SIZE then
    [pcm ++ List.replicate (FRAME_SIZE - pcm.length) 0]
  else
    pcm.take FRAME_SIZE :: sendChunksDirect (pcm.drop FRAME_SIZE)
termination_by pcm.length
decreasing_by
  have : 0 < FRAME_SIZE := by unfold FRAME_SIZE; omega
  simp only [List.length_drop]
  omega

/-- Frames sent by `run_file_input` for a decoded PCM buffer whose
sample rate already is 24 kHz (no resampler): the code first appends
`vec![0.0; 12000]` of silence, then runs the chunk loop. -/
def run_file_input_frames (pcm : List ℚ) : List (List ℚ) :=
  sendChunksDirect (pcm ++ List.replicate 12000 0)

/-- Result record of `StreamingModel::get_stats` (`stream/model.rs`). -/
structure ModelStats where
  avg_time_ms : ℚ
  p95_time_ms : ℚ
  frames_processed : ℕ

/-- Translation of `StreamingModel::get_stats` on the recorded
`frame_times`.  Rust's stable `sort_by` on floats is modelled as the
stable `List.insertionSort` on `ℚ`; `(x as usize)` on the nonnegative
float `len * 0.95` is truncation, i.e. the floor. -/
def get_stats (frame_times : List ℚ) : ModelStats :=
  if frame_times.isEmpty then
    ⟨0, 0, 0⟩
  else
    let sorted := frame_times.insertionSort (· ≤ ·)
    let avg := sorted.sum / (sorted.length : ℚ)
    let p95_idx := (⌊(sorted.length : ℚ) * (95 / 100)⌋).toNat
    let p95 := sorted.getD (min p95_idx (sorted.length - 1)) 0
    ⟨avg * 1000, p95 * 1000, sorted.length⟩

/-- One step of the 32-bit linear-congruential generator of
`stream/wav_writer.rs`: `rng.wrapping_mul(1103515245).wrapping_add(12345)`. -/
def lcg (r : ℕ) : ℕ := (r * 1103515245 + 12345) % 2 ^ 32

/-- Rust `f32::clamp(lo, hi)` on exact rationals. -/
def clampQ (x lo hi : ℚ) : ℚ := max lo (min x hi)

/-- Rust `as i16` on a float already clamped into the representable
range: truncation toward zero. -/
def ratTruncate (q : ℚ) : ℤ := if 0 ≤ q then ⌊q⌋ else ⌈q⌉

/-- The seed `0x12345678u32` installed by `run_wav_writer`. -/
def WAV_DITHER_SEED : ℕ := 0x12345678

/-- Translation of `dither_f32_to_i16` (`stream/wav_writer.rs`): the
first uniform is read from the current generator state, the generator is
stepped, the second uniform is read, the generator is stepped again;
`u32::MAX = 4294967295`.  Returns the emitted `i16` (as `ℤ`) and the new
generator state. -/
def dither_f32_to_i16 (sample : ℚ) (rng : ℕ) : ℤ × ℕ :=
  let r1 := (rng : ℚ) / 4294967295 - 1 / 2
  let rng1 := lcg rng
  let r2 := (rng1 : ℚ) / 4294967295 - 1 / 2
  let rng2 := lcg rng1
  let dither := (r1 + r2) / 32768
  let dithered := sample + dither
  (ratTruncate (clampQ dithered (-1) 1 * 32767), rng2)

/-- Reference conversion written from the specification's words: draw
two uniforms in `[-1/2, 1/2]` from a linear-congruential generator with
multiplier 1103515245 and increment 12345 in wrapping 32-bit arithmetic,
add their sum scaled by `1/32768` to the sample, clamp the result to
`[-1, 1]` and multiply by 32767.  Returns the (real-valued) converted
sample and the advanced generator state. -/
def ditherSpecModel (sample : ℚ) (state : ℕ) : ℚ × ℕ :=
  let u1 := (state : ℚ) / 4294967295 - 1 / 2
  let state1 : ℕ := (state * 1103515245 + 12345) % 2 ^ 32
  let u2 := (state1 : ℚ) / 4294967295 - 1 / 2
  let state2 : ℕ := (state1 * 1103515245 + 12345) % 2 ^ 32
  (clampQ (sample + (u1 + u2) / 32768) (-1) 1 * 32767, state2)

/-- Bound of the two sink queues created in `run` (`stream/mod.rs`):
`mpsc::sync_channel::<Vec<f32>>(50)`. -/
def SINK_QUEUE_CAP : ℕ := 50

/-- Semantics of one `SyncSender::send` attempt on a bounded queue,
modelled on the queue's pending-message list.  When the receiver is
attached and the queue is full the sender must wait for the consumer:
no transition is available, encoded as `none`.  When the receiver has
disconnected, `send` returns an error immediately and the tee's
`let _ =` discards it, leaving the queue state unchanged. -/
def chanSend {α : Type} (connected : Bool) (q : List α) (c : α) : Option (List α) :=
  if connected then
    if q.length < SINK_QUEUE_CAP then some (q ++ [c]) else none
  else
    some q

/-- One iteration of the audio-tee thread (`stream/mod.rs`, lines
139-144) on a received chunk `c`: `playback_tx.send(samples.clone())`
followed by `wav_tx.send(samples)`.  `none` means the tee is blocked
waiting on a full sink queue. -/
def teeStep {α : Type} (pc wc : Bool) (c : α) (pq wq : List α) :
    Option (List α × List α) :=
  match chanSend pc pq c with
  | none => none
  | some pq' =>
    match chanSend wc wq c with
    | none => none
    | some wq' => some (pq', wq')

/-- Tee behaviour written from the specification's words: a blocked
send drops the chunk for that sink only, the other sink continues; the
tee never waits on a full queue. -/
def teeStepSpecModel {α : Type} (c : α) (pq wq : List α) : List α × List α :=
  ((if pq.length < SINK_QUEUE_CAP then pq ++ [c] else pq),
   (if wq.length < SINK_QUEUE_CAP then wq ++ [c] else wq))

/-! Shared helper lemmas about the playback buffer. -/

theorem RING_BUFFER_SIZE_eq : RING_BUFFER_SIZE = 288000 := rfl

namespace PlaybackBuffer

variable {α : Type} [Inhabited α]

theorem wf_new : (new : PlaybackBuffer α).wf := by
  constructor <;> simp [new, RING_BUFFER_SIZE_eq]

theorem wf_available_le (s : PlaybackBuffer α) (h : s.wf) :
    s.available ≤ RING_BUFFER_SIZE - 1 := by
  obtain ⟨h1, h2⟩ := h
  rw [RING_BUFFER_SIZE_eq] at *
  unfold available
  rw [RING_BUFFER_SIZE_eq]
  split <;> omega

theorem wf_write (s : PlaybackBuffer α) (xs : List α) (h : s.wf) :
    ((s.write xs).2).wf := by
  obtain ⟨h1, h2⟩ := h
  rw [RING_BUFFER_SIZE_eq] at *
  simp only [write, available, wf, RING_BUFFER_SIZE_eq]
  split_ifs <;> constructor <;> simp_all <;> omega

theorem wf_read (s : PlaybackBuffer α) (n : ℕ) (h : s.wf) :
    ((s.read n).2).wf := by
  obtain ⟨h1, h2⟩ := h
  rw [RING_BUFFER_SIZE_eq] at *
  simp only [read, available, wf, RING_BUFFER_SIZE_eq]
  split_ifs <;> constructor <;> simp_all <;> omega

end PlaybackBuffer

theorem FRAME_SIZE_eq : FRAME_SIZE = 1920 := rfl

/-- Closed form of the direct (24 kHz) chunk loop on a buffer of `n`
zeros: it sends `⌈n / 1920⌉` frames, each 1920 zeros. -/
theorem sendChunksDirect_replicate_zero (n : ℕ) :
    sendChunksDirect (List.replicate n 0) =
      List.replicate ((n + FRAME_SIZE - 1) / FRAME_SIZE) (List.replicate FRAME_SIZE 0) := by
  induction n using Nat.strong_induction_on with
  | _ n ih =>
    rw [sendChunksDirect.eq_def]
    rw [List.length_replicate]
    by_cases h0 : n = 0
    · rw [if_pos h0, h0]
      rw [FRAME_SIZE_eq]
      norm_num
    · rw [if_neg h0]
      by_cases h1 : n < FRAME_SIZE
      · rw [if_pos h1]
        rw [← List.replicate_add]
        have he : n + (FRAME_SIZE - n) = FRAME_SIZE := by
          rw [FRAME_SIZE_eq] at *; omega
        rw [he]
        have hc : (n + FRAME_SIZE - 1) / FRAME_SIZE = 1 := by
          rw [FRAME_SIZE_eq] at *; omega
        rw [hc]
        rfl
      · rw [if_neg h1]
        rw [List.take_replicate, List.drop_replicate]
        have hm : min FRAME_SIZE n = FRAME_SIZE := by
          rw [FRAME_SIZE_eq] at *; omega
        rw [hm]
        rw [ih (n - FRAME_SIZE) (by rw [FRAME_SIZE_eq] at *; omega)]
        have hc : (n - FRAME_SIZE + FRAME_SIZE - 1) / FRAME_SIZE + 1 =
            (n + FRAME_SIZE - 1) / FRAME_SIZE := by
          rw [FRAME_SIZE_eq] at *; omega
        rw [← hc]
        rfl

/-- Every frame popped by the extraction loop has length exactly
`FRAME_SIZE`. -/
theorem extractFrames_length (acc : List ℚ) :
    ∀ f ∈ (StreamingResampler.extractFrames acc).1, f.length = FRAME_SIZE := by
  induction acc using StreamingResampler.extractFrames.induct with
  | case1 acc h ih =>
    intro f hf
    rw [StreamingResampler.extractFrames] at hf
    rw [dif_pos h] at hf
    rcases List.mem_cons.mp hf with rfl | hmem
    · rw [List.length_take]
      omega
    · exact ih f hmem
  | case2 acc h =>
    intro f hf
    rw [StreamingResampler.extractFrames] at hf
    rw [dif_neg h] at hf
    simp at hf

theorem idx_lt {q ch channels spc : ℕ} (hq : q < spc) (hch : ch < channels) :
    q * channels + ch < channels * spc := by
  calc q * channels + ch < q * channels + channels := by omega
  _ = (q + 1) * channels := by ring
  _ ≤ spc * channels := Nat.mul_le_mul_right _ hq
  _ = channels * spc := Nat.mul_comm _ _

/-- The de-interleave step reads the input slice only below position
`channels * spc`, so two inputs agreeing there yield the same scratch. -/
theorem deinterleave_congr (xs ys : List ℚ) (channels spc pos input_len to_copy : ℕ)
    (inputBuf : ℕ → ℕ → ℚ)
    (hagree : ∀ k, k < channels * spc → xs.getD k 0 = ys.getD k 0)
    (hle : pos + to_copy ≤ spc) :
    StreamingResampler.deinterleave xs channels pos input_len to_copy inputBuf =
      StreamingResampler.deinterleave ys channels pos input_len to_copy inputBuf := by
  funext ch i
  unfold StreamingResampler.deinterleave
  split
  · next hcond =>
    obtain ⟨hch, hi1, hi2⟩ := hcond
    exact hagree _ (idx_lt (by omega) hch)
  · rfl

/-- The push loop depends on the input slice only below position
`channels * spc`. -/
theorem pushLoop_congr (proc : (ℕ → ℕ → ℚ) → ℕ × (ℕ → ℕ → ℚ)) (channels chunk : ℕ)
    (xs ys : List ℚ) (spc : ℕ) (hc : 0 < chunk)
    (hagree : ∀ k, k < channels * spc → xs.getD k 0 = ys.getD k 0) :
    ∀ (pos : ℕ) (inputBuf : ℕ → ℕ → ℚ) (input_len : ℕ) (acc : List ℚ),
      StreamingResampler.pushLoop proc channels chunk xs spc hc pos inputBuf input_len acc =
        StreamingResampler.pushLoop proc channels chunk ys spc hc pos inputBuf input_len acc := by
  refine StreamingResampler.pushLoop.induct proc channels chunk xs spc hc
    (fun pos inputBuf input_len acc =>
      StreamingResampler.pushLoop proc channels chunk xs spc hc pos inputBuf input_len acc =
        StreamingResampler.pushLoop proc channels chunk ys spc hc pos inputBuf input_len acc)
    ?_ ?_ ?_
  · intro pos inputBuf input_len acc h space to_copy buf' h2 ih
    have hbuf : StreamingResampler.deinterleave ys channels pos input_len to_copy inputBuf =
        buf' :=
      (deinterleave_congr xs ys channels spc pos input_len to_copy inputBuf hagree
        (by omega)).symm
    rw [StreamingResampler.pushLoop]
    conv_rhs => rw [StreamingResampler.pushLoop]
    rw [dif_pos h, dif_pos h]
    simp only
    rw [dif_pos h2, dif_pos h2]
    rw [hbuf]
    exact ih
  · intro pos inputBuf input_len acc h space to_copy buf' h2 ih
    have hbuf : StreamingResampler.deinterleave ys channels pos input_len to_copy inputBuf =
        buf' :=
      (deinterleave_congr xs ys channels spc pos input_len to_copy inputBuf hagree
        (by omega)).symm
    rw [StreamingResampler.pushLoop]
    conv_rhs => rw [StreamingResampler.pushLoop]
    rw [dif_pos h, dif_pos h]
    simp only
    rw [dif_neg h2, dif_neg h2]
    rw [hbuf]
    exact ih
  · intro pos inputBuf input_len acc h
    rw [StreamingResampler.pushLoop]
    conv_rhs => rw [StreamingResampler.pushLoop]
    rw [dif_neg h, dif_neg h]

/-! Claim theorems. -/

/-- Dropping `n` elements of `range m` leaves a shifted range. -/
theorem drop_range' (n m : ℕ) : (List.range m).drop n = (List.range (m - n)).map (n + ·) := by
  apply List.ext_getElem
  · simp
  · intro i h1 h2
    simp [List.getElem_drop, List.getElem_range]

/-- C9: `PlaybackBuffer::read(count)` returns exactly
`min count available` samples, namely the oldest buffered samples in
FIFO order (the first `min count available` elements of the abstract
contents), the available count drops by exactly that number, the
remaining contents are the corresponding suffix, and on an empty buffer
the output is empty and the buffer unchanged. -/
theorem C9_read_fifo {α : Type} [Inhabited α] (s : PlaybackBuffer α) (count : ℕ)
    (h : s.wf) :
    (s.read count).1 = s.contents.take (min count s.available) ∧
    ((s.read count).2).available = s.available - min count s.available ∧
    ((s.read count).2).contents = s.contents.drop (min count s.available) ∧
    (s.available = 0 → s.read count = ([], s)) := by
  obtain ⟨hw, hr⟩ := h
  rw [RING_BUFFER_SIZE_eq] at hw hr
  have hAval : (s.read_pos ≤ s.write_pos ∧ s.available = s.write_pos - s.read_pos) ∨
      (s.write_pos < s.read_pos ∧ s.available = 288000 - s.read_pos + s.write_pos) := by
    unfold PlaybackBuffer.available
    rw [RING_BUFFER_SIZE_eq]
    split_ifs with hc
    · exact Or.inl ⟨hc, rfl⟩
    · exact Or.inr ⟨by omega, rfl⟩
  have hAle : s.available ≤ 287999 := by
    rcases hAval with ⟨h1, h2⟩ | ⟨h1, h2⟩ <;> omega
  set n := min count s.available with hn
  have hnA : n ≤ s.available := by omega
  have htake : s.contents.take n = (List.range n).map
      (fun i => s.buffer ((s.read_pos + i) % 288000)) := by
    unfold PlaybackBuffer.contents
    rw [RING_BUFFER_SIZE_eq]
    rw [← List.map_take, List.take_range, min_eq_left hnA]
  have hdrop : s.contents.drop n = (List.range (s.available - n)).map
      (fun i => s.buffer ((s.read_pos + (n + i)) % 288000)) := by
    unfold PlaybackBuffer.contents
    rw [RING_BUFFER_SIZE_eq]
    rw [← List.map_drop, drop_range', List.map_map]
    rfl
  unfold PlaybackBuffer.read
  rw [RING_BUFFER_SIZE_eq]
  simp only [← hn]
  split_ifs with h0 h1
  · refine ⟨?_, ?_, ?_, fun _ => rfl⟩
    · rw [h0, List.take_zero]
    · show s.available = s.available - n
      omega
    · rw [h0, List.drop_zero]
  · have havail2 : ({ s with read_pos := (s.read_pos + n) % 288000 } :
        PlaybackBuffer α).available = s.available - n := by
      unfold PlaybackBuffer.available
      rw [RING_BUFFER_SIZE_eq]
      simp only
      rcases hAval with ⟨hc, hA⟩ | ⟨hc, hA⟩ <;> split_ifs <;> omega
    refine ⟨?_, havail2, ?_, ?_⟩
    · rw [htake]
      apply List.map_congr_left
      intro i hi
      rw [List.mem_range] at hi
      exact congrArg s.buffer (by omega)
    · rw [hdrop]
      show PlaybackBuffer.contents
        ({ s with read_pos := (s.read_pos + n) % 288000 } : PlaybackBuffer α) = _
      unfold PlaybackBuffer.contents
      rw [RING_BUFFER_SIZE_eq]
      rw [havail2]
      apply List.map_congr_left
      intro i hi
      rw [List.mem_range] at hi
      exact congrArg s.buffer
        (show ((s.read_pos + n) % 288000 + i) % 288000 =
          (s.read_pos + (n + i)) % 288000 by omega)
    · intro hA0
      exact absurd (by omega) h0
  · have hwrap : s.write_pos < s.read_pos ∧
        s.available = 288000 - s.read_pos + s.write_pos := by
      rcases hAval with ⟨hc, hA⟩ | ⟨hc, hA⟩
      · exact absurd (by omega) h1
      · exact ⟨hc, hA⟩
    obtain ⟨hcw, hA⟩ := hwrap
    have havail3 : ({ s with read_pos := n - (288000 - s.read_pos) } :
        PlaybackBuffer α).available = s.available - n := by
      unfold PlaybackBuffer.available
      rw [RING_BUFFER_SIZE_eq]
      simp only
      split_ifs <;> omega
    refine ⟨?_, havail3, ?_, ?_⟩
    · rw [htake]
      apply List.ext_getElem
      · simp only [List.length_append, List.length_map, List.length_range]
        omega
      · intro i hi1 hi2
        simp only [List.length_append, List.length_map, List.length_range] at hi1
        rw [List.getElem_map, List.getElem_range]
        by_cases hifc : i < 288000 - s.read_pos
        · rw [List.getElem_append_left (by
            simp only [List.length_map, List.length_range]
            omega)]
          rw [List.getElem_map, List.getElem_range]
          exact congrArg s.buffer (by omega)
        · rw [List.getElem_append_right (by
            simp only [List.length_map, List.length_range]
            omega)]
          rw [List.getElem_map, List.getElem_range]
          simp only [List.length_map, List.length_range]
          exact congrArg s.buffer (by omega)
    · rw [hdrop]
      show PlaybackBuffer.contents
        ({ s with read_pos := n - (288000 - s.read_pos) } : PlaybackBuffer α) = _
      unfold PlaybackBuffer.contents
      rw [RING_BUFFER_SIZE_eq]
      rw [havail3]
      apply List.map_congr_left
      intro i hi
      rw [List.mem_range] at hi
      exact congrArg s.buffer
        (show (n - (288000 - s.read_pos) + i) % 288000 =
          (s.read_pos + (n + i)) % 288000 by omega)
    · intro hA0
      exact absurd (by omega) h0

/-- Concrete playback buffer for the C9 witness: three samples 0, 1, 2
buffered at the front. -/
def pbW : PlaybackBuffer ℚ := ⟨fun i => (i : ℚ), 3, 0⟩

/-- C9 witness: the theorem applied to a buffer holding three samples
and a read of two. -/
theorem C9_read_fifo_witness :
    pbW.wf ∧
    ((pbW.read 2).1 = pbW.contents.take (min 2 pbW.available) ∧
      ((pbW.read 2).2).available = pbW.available - min 2 pbW.available ∧
      ((pbW.read 2).2).contents = pbW.contents.drop (min 2 pbW.available) ∧
      (pbW.available = 0 → pbW.read 2 = ([], pbW))) := by
  have hwf : pbW.wf := by
    constructor <;> norm_num [pbW, RING_BUFFER_SIZE_eq]
  exact ⟨hwf, C9_read_fifo pbW 2 hwf⟩

/-- C2 (code evaluated at the failing inputs): the playback constants in
`stream/playback.rs` evaluate to `PAUSE_THRESHOLD = 240` (0.01 s) and
`RESUME_THRESHOLD = 2400` (0.1 s), not the 2400 and 6000 samples the
claim (and the code's own comments) state; consequently the hysteresis
keeps Playing at 1000 available samples (claim: pause below 2400) and
resumes from Paused at 3000 available samples (claim: resume only at
6000). -/
theorem C2_threshold_code_values :
    PAUSE_THRESHOLD = 240 ∧ RESUME_THRESHOLD = 2400 ∧
    ¬ (PAUSE_THRESHOLD = 2400 ∧ RESUME_THRESHOLD = 6000) ∧
    hysteresis true 1000 0 = (true, 0) ∧
    hysteresis false 3000 0 = (true, 0) := by
  refine ⟨rfl, rfl, by decide, ?_, ?_⟩ <;> decide

/-- C4 counterexample: with the playback sink queue full (50 pending
chunks) and both receivers attached, the tee's blocking `send` admits no
step (`none`): the chunk is neither dropped for the full sink nor
delivered to the empty WAV sink, contradicting the claimed
drop-and-continue behaviour. -/
theorem C4_tee_blocks_counterexample :
    teeStep true true (0 : ℕ) (List.replicate 50 0) [] = none ∧
    teeStepSpecModel (0 : ℕ) (List.replicate 50 0) [] =
      (List.replicate 50 0, [0]) ∧
    teeStep true true (0 : ℕ) (List.replicate 50 0) [] ≠
      some (teeStepSpecModel (0 : ℕ) (List.replicate 50 0) []) := by
  refine ⟨by decide, by decide, by decide⟩

/-- C4 (amended): the tee's `send` is blocking.  With space in both
attached sink queues the chunk is delivered to both; with a full,
still-attached playback queue the tee blocks (no step) instead of
dropping; a chunk is dropped for a sink only when that sink's receiver
has disconnected, and the other sink still receives it. -/
theorem C4_tee_send_semantics {α : Type} (c : α) (pq wq : List α) :
    (pq.length < SINK_QUEUE_CAP → wq.length < SINK_QUEUE_CAP →
      teeStep true true c pq wq = some (pq ++ [c], wq ++ [c])) ∧
    (SINK_QUEUE_CAP ≤ pq.length → teeStep true true c pq wq = none) ∧
    (pq.length < SINK_QUEUE_CAP → SINK_QUEUE_CAP ≤ wq.length →
      teeStep true true c pq wq = none) ∧
    (wq.length < SINK_QUEUE_CAP → teeStep false true c pq wq = some (pq, wq ++ [c])) ∧
    (pq.length < SINK_QUEUE_CAP → teeStep true false c pq wq = some (pq ++ [c], wq)) := by
  refine ⟨?_, ?_, ?_, ?_, ?_⟩
  · intro h1 h2
    simp [teeStep, chanSend, h1, h2]
  · intro h1
    have h1' : ¬ pq.length < SINK_QUEUE_CAP := Nat.not_lt.mpr h1
    simp [teeStep, chanSend, h1']
  · intro h1 h2
    have h2' : ¬ wq.length < SINK_QUEUE_CAP := Nat.not_lt.mpr h2
    simp [teeStep, chanSend, h1, h2']
  · intro h1
    simp [teeStep, chanSend, h1]
  · intro h1
    simp [teeStep, chanSend, h1]

/-- C4 witness: the amended theorem applied with both queues empty and
with a full playback queue. -/
theorem C4_tee_send_semantics_witness :
    (([] : List ℕ).length < SINK_QUEUE_CAP ∧
      teeStep true true 0 ([] : List ℕ) [] = some ([0], [0])) ∧
    (SINK_QUEUE_CAP ≤ (List.replicate 50 (0 : ℕ)).length ∧
      teeStep true true 0 (List.replicate 50 (0 : ℕ)) [] = none) :=
  ⟨⟨by decide, (C4_tee_send_semantics 0 [] []).1 (by decide) (by decide)⟩,
   ⟨by decide, (C4_tee_send_semantics 0 (List.replicate 50 0) []).2.1 (by decide)⟩⟩

/-- C8: the WAV writer's float-to-int16 conversion agrees with the
reference definition written from the specification: draw two uniforms
in `[-1/2, 1/2]` from the linear-congruential generator (multiplier
1103515245, increment 12345, wrapping 32-bit arithmetic), add their sum
scaled by `1/32768` to the sample, clamp to `[-1, 1]`, multiply by
32767; the emitted integer is the truncation of that value and the
generator state advances identically, starting from seed `0x12345678`
in `run_wav_writer`. -/
theorem C8_dither_refines_spec (sample : ℚ) (rng : ℕ) :
    dither_f32_to_i16 sample rng =
      (ratTruncate (ditherSpecModel sample rng).1, (ditherSpecModel sample rng).2) ∧
    WAV_DITHER_SEED = 0x12345678 := by
  constructor
  · simp only [dither_f32_to_i16, ditherSpecModel, lcg]
  · rfl

/-- C1 (code evaluated at the failing input): a buffer holding
`CAP - 1 = 287999` samples (write cursor 287999, read cursor 0) has
`free = 0`; writing one more sample reports overflow and advances the
read cursor by one (dropping the oldest sample), but the code then
copies only `to_write = min(len, free) = 0` new samples — the incoming
sample `1` never reaches the backing store and `available` ends at
287998, not `CAP - 1` as the claim requires. -/
theorem C1_overflow_drops_new_samples :
    ((⟨fun _ => 0, 287999, 0⟩ : PlaybackBuffer ℚ).write [1]).1 = true ∧
    (⟨fun _ => 0, 287999, 0⟩ : PlaybackBuffer ℚ).writeAccepted [1] = 0 ∧
    (((⟨fun _ => 0, 287999, 0⟩ : PlaybackBuffer ℚ).write [1]).2).available = 287998 ∧
    RING_BUFFER_SIZE - 1 = 287999 ∧
    ∀ i : ℕ, (((⟨fun _ => 0, 287999, 0⟩ : PlaybackBuffer ℚ).write [1]).2).buffer i = 0 := by
  refine ⟨rfl, rfl, rfl, rfl, ?_⟩
  intro i
  show (if 287999 ≤ i ∧ i < 287999 + min 1 0 then
      ([(1 : ℚ)]).getD (i - 287999) default else (0 : ℚ)) = 0
  rw [if_neg (by omega)]

/-- C5 counterexample: for a 0-sample decoded file at 24 kHz,
`run_file_input` does not send zero frames: the 12000-sample silence
tail appended before the chunk loop produces 7 frames. -/
theorem C5_zero_frames_counterexample :
    (run_file_input_frames []).length = 7 ∧ run_file_input_frames [] ≠ [] := by
  have h : run_file_input_frames [] =
      List.replicate 7 (List.replicate FRAME_SIZE (0 : ℚ)) := by
    unfold run_file_input_frames
    rw [List.nil_append, sendChunksDirect_replicate_zero]
    have hc : (12000 + FRAME_SIZE - 1) / FRAME_SIZE = 7 := by
      rw [FRAME_SIZE_eq]
    rw [hc]
  constructor
  · rw [h, List.length_replicate]
  · rw [h]
    intro hcon
    have := congrArg List.length hcon
    rw [List.length_replicate] at this
    exact (by norm_num : (7 : ℕ) ≠ 0) this

/-- C5 (amended): for a 0-sample input file at 24 kHz (no resampler),
`run_file_input` first appends 12000 samples of silence, so the chunk
loop sends `⌈12000 / 1920⌉ = 7` frames — six full silence frames plus a
final zero-padded partial frame — and the function returns without
error. -/
theorem C5_empty_file_frames :
    run_file_input_frames [] = List.replicate 7 (List.replicate FRAME_SIZE (0 : ℚ)) := by
  unfold run_file_input_frames
  rw [List.nil_append, sendChunksDirect_replicate_zero]
  have hc : (12000 + FRAME_SIZE - 1) / FRAME_SIZE = 7 := by
    rw [FRAME_SIZE_eq]
  rw [hc]

/-- C7: every frame returned by `push_samples` and every frame returned
by `flush` (zero-padded at the tail when the accumulator holds fewer
than 1920 samples) has length exactly 1920, for every abstract
behaviour of the external `rubato` processing step. -/
theorem C7_frames_length :
    (∀ (proc : (ℕ → ℕ → ℚ) → ℕ × (ℕ → ℕ → ℚ)) (s : StreamingResampler) (xs : List ℚ)
        (hc : 0 < s.chunkSize) (f : List ℚ),
        f ∈ (s.push_samples proc xs hc).1 → f.length = FRAME_SIZE) ∧
    (∀ (fp : ℕ → (ℕ → ℕ → ℚ) → ℕ × (ℕ → ℕ → ℚ)) (s : StreamingResampler) (f : List ℚ),
        (s.flush fp).1 = some f → f.length = FRAME_SIZE) := by
  constructor
  · intro proc s xs hc f hf
    simp only [StreamingResampler.push_samples] at hf
    exact extractFrames_length _ f hf
  · intro fp s f hf
    simp only [StreamingResampler.flush] at hf
    split at hf <;> split at hf <;>
      first
        | (rw [Option.some.injEq] at hf
           rw [← hf]
           rw [List.length_take, List.length_append, List.length_replicate]
           omega)
        | exact absurd hf (by simp)

/-- Concrete resampler state for the push part of the C7 witness: the
accumulator already holds a full 1920-sample frame. -/
def resW1 : StreamingResampler := ⟨1024, fun _ _ => 0, 0, List.replicate FRAME_SIZE 0, 1⟩

/-- Concrete resampler state for the flush part of the C7 witness: the
accumulator holds the single sample 5. -/
def resW2 : StreamingResampler := ⟨1024, fun _ _ => 0, 0, [5], 1⟩

/-- Trivial concrete stand-in for the abstract full-buffer processing
step in the C7 witness. -/
def procW : (ℕ → ℕ → ℚ) → ℕ × (ℕ → ℕ → ℚ) := fun b => (0, b)

/-- Trivial concrete stand-in for the abstract partial processing step
in the C7 witness. -/
def flushProcW : ℕ → (ℕ → ℕ → ℚ) → ℕ × (ℕ → ℕ → ℚ) := fun _ b => (0, b)

/-- C7 witness: a resampler state whose accumulator already holds 1920
samples yields that frame from `push_samples` on empty input, and a
state holding the single sample 5 yields the zero-padded frame from
`flush`; both frames have length 1920. -/
theorem C7_frames_length_witness :
    (List.replicate FRAME_SIZE (0 : ℚ) ∈
        (resW1.push_samples procW [] (by norm_num [resW1])).1 ∧
      (List.replicate FRAME_SIZE (0 : ℚ)).length = FRAME_SIZE) ∧
    ((resW2.flush flushProcW).1 = some ((5 : ℚ) :: List.replicate (FRAME_SIZE - 1) 0) ∧
      ((5 : ℚ) :: List.replicate (FRAME_SIZE - 1) 0).length = FRAME_SIZE) := by
  have hmem : List.replicate FRAME_SIZE (0 : ℚ) ∈
      (resW1.push_samples procW [] (by norm_num [resW1])).1 := by
    simp only [StreamingResampler.push_samples, resW1, procW, List.length_nil, Nat.zero_div]
    rw [StreamingResampler.pushLoop]
    rw [dif_neg (by omega)]
    rw [StreamingResampler.extractFrames]
    rw [dif_pos (by rw [List.length_replicate])]
    rw [List.take_of_length_le (by rw [List.length_replicate])]
    exact List.mem_cons_self _ _
  have hflush : (resW2.flush flushProcW).1 =
      some ((5 : ℚ) :: List.replicate (FRAME_SIZE - 1) 0) := by
    simp only [StreamingResampler.flush, resW2, flushProcW]
    norm_num
    simp only [FRAME_SIZE_eq]
    omega
  exact ⟨⟨hmem, C7_frames_length.1 procW resW1 [] (by norm_num [resW1]) _ hmem⟩,
    ⟨hflush, C7_frames_length.2 flushProcW resW2 _ hflush⟩⟩

/-- C10: `push_samples` on an interleaved slice whose length is not a
multiple of the channel count behaves exactly like `push_samples` on the
slice truncated to `channels * (len / channels)` samples: the trailing
`len mod channels` samples are silently discarded (the model is total,
mirroring that the code reports no error for them). -/
theorem C10_trailing_samples_discarded (proc : (ℕ → ℕ → ℚ) → ℕ × (ℕ → ℕ → ℚ))
    (s : StreamingResampler) (xs : List ℚ) (hc : 0 < s.chunkSize) (hch : 0 < s.channels) :
    s.push_samples proc xs hc =
      s.push_samples proc (xs.take (s.channels * (xs.length / s.channels))) hc := by
  have hmle : s.channels * (xs.length / s.channels) ≤ xs.length := Nat.mul_div_le _ _
  have hlen : (xs.take (s.channels * (xs.length / s.channels))).length / s.channels =
      xs.length / s.channels := by
    rw [List.length_take]
    rw [min_eq_left hmle]
    exact Nat.mul_div_cancel_left _ hch
  have hagree : ∀ k, k < s.channels * (xs.length / s.channels) →
      xs.getD k 0 = (xs.take (s.channels * (xs.length / s.channels))).getD k 0 := by
    intro k hk
    rw [List.getD_eq_getElem?_getD, List.getD_eq_getElem?_getD]
    rw [List.getElem?_take]
    rw [if_pos hk]
  unfold StreamingResampler.push_samples
  simp only [hlen]
  rw [pushLoop_congr proc s.channels s.chunkSize xs
    (xs.take (s.channels * (xs.length / s.channels))) (xs.length / s.channels) hc hagree]

/-- Concrete resampler state for the C10 witness. -/
def resX : StreamingResampler := ⟨1024, fun _ _ => 0, 0, [], 2⟩

/-- Trivial concrete processing step for the C10 witness. -/
def procX : (ℕ → ℕ → ℚ) → ℕ × (ℕ → ℕ → ℚ) := fun b => (0, b)

/-- C10 witness: the theorem applied to a stereo resampler and the
3-sample interleaved slice `[1, 2, 3]`, whose trailing sample is
discarded. -/
theorem C10_trailing_samples_witness :
    (0 < resX.chunkSize ∧ 0 < resX.channels) ∧
    resX.push_samples procX [1, 2, 3] (by norm_num [resX]) =
      resX.push_samples procX ([(1 : ℚ), 2, 3].take
        (resX.channels * ([(1 : ℚ), 2, 3].length / resX.channels))) (by norm_num [resX]) :=
  ⟨⟨by norm_num [resX], by norm_num [resX]⟩,
    C10_trailing_samples_discarded procX resX [1, 2, 3]
      (by norm_num [resX]) (by norm_num [resX])⟩

/-- C3 counterexample: for 21 recorded latencies — twenty zeros and a
single 1 — the p95 index is `⌊21 · 0.95⌋ = 19`, the sorted vector's
19th element is 0, yet the mean is `1/21 > 0`: the reported p95 is
strictly below the reported mean. -/
theorem C3_p95_lt_mean_counterexample :
    (get_stats (List.replicate 20 0 ++ [1])).p95_time_ms <
      (get_stats (List.replicate 20 0 ++ [1])).avg_time_ms := by
  have hsorted : (List.replicate 20 (0 : ℚ) ++ [1]).Sorted (· ≤ ·) := by
    decide
  rw [get_stats]
  rw [List.Sorted.insertionSort_eq hsorted]
  have hfloor : ⌊(((List.replicate 20 (0 : ℚ) ++ [1]).length : ℚ)) * (95 / 100)⌋ = 19 := by
    norm_num
  norm_num [hfloor, List.getElem_append, List.getElem_replicate]

/-- C3 (amended): the reported p95 per-frame latency is at least the
reported mean whenever the clamped index `min ⌊0.95 N⌋ (N - 1)` equals
`N - 1` (as happens for every `N ≤ 20`), since the selected element is
then the maximum of the sorted vector; for larger `N` the claimed
invariant `p95 ≥ mean` can fail. -/
theorem C3_p95_ge_mean_when_clamped (l : List ℚ) (hne : l ≠ [])
    (hidx : min ((⌊(l.length : ℚ) * (95 / 100)⌋).toNat) (l.length - 1) = l.length - 1) :
    (get_stats l).avg_time_ms ≤ (get_stats l).p95_time_ms := by
  have hE : l.isEmpty = false := by simp [List.isEmpty_eq_false, hne]
  simp only [get_stats, hE, Bool.false_eq_true, if_false]
  set s := l.insertionSort (· ≤ ·) with hs
  have hlen : s.length = l.length := List.length_insertionSort _ l
  have hpos : 0 < s.length := by
    rw [hlen]
    exact List.length_pos.mpr hne
  have hidx' : min ((⌊(s.length : ℚ) * (95 / 100)⌋).toNat) (s.length - 1) =
      s.length - 1 := by
    rw [hlen]
    exact hidx
  rw [hidx']
  have hlast : s.length - 1 < s.length := by omega
  rw [List.getD_eq_getElem s 0 hlast]
  have hsorted : s.Sorted (· ≤ ·) := List.sorted_insertionSort _ l
  have hmax : ∀ x ∈ s, x ≤ s[s.length - 1] := by
    intro x hx
    obtain ⟨i, hi, rfl⟩ := List.mem_iff_getElem.mp hx
    have : s.get ⟨i, hi⟩ ≤ s.get ⟨s.length - 1, hlast⟩ :=
      hsorted.rel_get_of_le (by exact Fin.mk_le_mk.mpr (by omega))
    simpa using this
  have hsum_le : s.sum ≤ s.length • s[s.length - 1] :=
    List.sum_le_card_nsmul s _ hmax
  have hlen0 : (0 : ℚ) < (s.length : ℚ) := by exact_mod_cast hpos
  have hdiv : s.sum / (s.length : ℚ) ≤ s[s.length - 1] := by
    rw [div_le_iff₀ hlen0]
    calc s.sum ≤ s.length • s[s.length - 1] := hsum_le
    _ = s[s.length - 1] * (s.length : ℚ) := by
        rw [nsmul_eq_mul]; ring
  exact mul_le_mul_of_nonneg_right hdiv (by norm_num)

/-- C3 witness: the amended theorem applied to the two-element latency
vector `[1, 2]`, whose clamped p95 index is `N - 1 = 1`. -/
theorem C3_p95_ge_mean_witness :
    (([(1 : ℚ), 2] ≠ []) ∧
      min ((⌊(([(1 : ℚ), 2].length : ℚ)) * (95 / 100)⌋).toNat) ([(1 : ℚ), 2].length - 1) =
        [(1 : ℚ), 2].length - 1) ∧
    (get_stats [(1 : ℚ), 2]).avg_time_ms ≤ (get_stats [(1 : ℚ), 2]).p95_time_ms :=
  ⟨⟨by decide, by norm_num⟩, C3_p95_ge_mean_when_clamped [1, 2] (by decide) (by norm_num)⟩

/-- C6: the ring-buffer cursors are in range initially and stay in
range under every `write` and every `read`, and in-range cursors force
`available() ≤ CAP - 1`. -/
theorem C6_available_invariant :
    (PlaybackBuffer.new : PlaybackBuffer ℚ).wf ∧
    (∀ s : PlaybackBuffer ℚ, s.wf → s.available ≤ RING_BUFFER_SIZE - 1) ∧
    (∀ (s : PlaybackBuffer ℚ) (xs : List ℚ), s.wf → ((s.write xs).2).wf) ∧
    (∀ (s : PlaybackBuffer ℚ) (n : ℕ), s.wf → ((s.read n).2).wf) :=
  ⟨PlaybackBuffer.wf_new,
   fun s h => PlaybackBuffer.wf_available_le s h,
   fun s xs h => PlaybackBuffer.wf_write s xs h,
   fun s n h => PlaybackBuffer.wf_read s n h⟩

/-- C6 witness: the invariant chain evaluated on the fresh buffer, a
write of two samples and a read of one sample. -/
theorem C6_available_invariant_witness :
    (PlaybackBuffer.new : PlaybackBuffer ℚ).wf ∧
    (PlaybackBuffer.new : PlaybackBuffer ℚ).available ≤ RING_BUFFER_SIZE - 1 ∧
    (((PlaybackBuffer.new : PlaybackBuffer ℚ).write [1, 2]).2).wf ∧
    (((PlaybackBuffer.new : PlaybackBuffer ℚ).read 1).2).wf :=
  ⟨C6_available_invariant.1,
   C6_available_invariant.2.1 _ C6_available_invariant.1,
   C6_available_invariant.2.2.1 _ [1, 2] C6_available_invariant.1,
   C6_available_invariant.2.2.2 _ 1 C6_available_invariant.1⟩

end Hibiki
